import Mathlib

/-!
Verification development for a C++-to-foreign-language binding-surface
analyzer and selective-exclusion generator, together with a shallow
embedding of the example header `examples/namespace/src/input.h`.

The first part embeds the inline C++ functions of the header as pure Lean
functions (a const-reference parameter is modelled state-passing style:
the function returns its result together with the final state of the
referenced object).  The second part models the generator core described
by the specification (Declaration Model, Type Mapper, Symbol Table and
Collision Detector, Exclusion Policy, Binding Emitter), whose source is
not part of this repository snapshot.
-/

/-- Shallow model of std::shared_ptr: either null or pointing at a value.
The default constructor yields a null pointer. -/
inductive SharedPtr (α : Type) where
  | null : SharedPtr α
  | mk (a : α) : SharedPtr α
deriving DecidableEq, Repr

/-- std::shared_ptr's default constructor produces the null pointer. -/
def SharedPtr.defaultCtor {α : Type} : SharedPtr α := .null

namespace my_namespace

/-- struct X {}; -/
structure X where
deriving DecidableEq, Repr

/-- struct Y {}; -/
structure Y where
deriving DecidableEq, Repr

/-- struct Z {}; -/
structure Z where
deriving DecidableEq, Repr

/-- struct Rect {}; -/
structure Rect where
deriving DecidableEq, Repr

/-- class MyProblematicClass, a member-less class with a default
constructor and a nested Variant alias. -/
structure MyProblematicClass where
deriving DecidableEq, Repr

/-- The nested alias MyProblematicClass::Variant =
std::variant of shared_ptr X, shared_ptr Y, shared_ptr Z, Rect,
with the four alternatives in declaration order. -/
inductive MyProblematicClass.Variant where
  | altX (p : SharedPtr X)
  | altY (p : SharedPtr Y)
  | altZ (p : SharedPtr Z)
  | altRect (r : Rect)
deriving DecidableEq, Repr

/-- std::variant::index: the discriminant of the currently held
alternative, 0 for the first declared alternative. -/
def MyProblematicClass.Variant.index : MyProblematicClass.Variant → Nat
  | .altX _ => 0
  | .altY _ => 1
  | .altZ _ => 2
  | .altRect _ => 3

/-- Default construction of std::variant: the first declared alternative,
itself default-constructed (a null shared_ptr of X). -/
def MyProblematicClass.Variant.defaultCtor : MyProblematicClass.Variant :=
  .altX SharedPtr.defaultCtor

/-- inline MyProblematicClass::Variant make_variant: default-constructs a
Variant and returns it. -/
def make_variant : MyProblematicClass.Variant :=
  MyProblematicClass.Variant.defaultCtor

/-- class MyPrimaryClass, a member-less class with three methods. -/
structure MyPrimaryClass where
deriving DecidableEq, Repr

/-- inline uint32_t MyPrimaryClass::method_one: returns 1. -/
def MyPrimaryClass.method_one (_self : MyPrimaryClass) : Nat := 1

/-- inline uint32_t MyPrimaryClass::method_two: returns 2. -/
def MyPrimaryClass.method_two (_self : MyPrimaryClass) : Nat := 2

/-- inline uint32_t method_broken(const MyProblematicClass::Variant&):
the free function; its body is `return 3;`.  The const-referenced
argument is threaded through and returned unchanged alongside the
result, making the absence of mutation explicit. -/
def method_broken (variant : MyProblematicClass.Variant) :
    Nat × MyProblematicClass.Variant :=
  (3, variant)

end my_namespace

/-! ## Generator core: Declaration Model -/

/-- Modelled from the spec: a fully qualified name is the namespace path
followed by the local name, e.g. [my_namespace, MyPrimaryClass, method_one]. -/
abbrev QualifiedName := List String

/-- Modelled from the spec: the kind tag of a Declaration. -/
inductive DeclKind where
  | Namespace
  | Struct
  | Class
  | Method
  | FreeFunction
  | TaggedUnion
deriving DecidableEq, Repr

/-- Modelled from the spec: ownership qualifiers on a TypeRef reflecting
C++ pointer/reference/value semantics (value = no qualifier). -/
inductive Ownership where
  | owned
  | shared
  | borrowed
  | value
deriving DecidableEq, Repr

/-- Modelled from the spec: a TypeRef is a non-owning reference to a
Declaration (by qualified name, with an ownership qualifier) or a
primitive type. -/
inductive TypeRef where
  | prim (name : String)
  | decl (qn : QualifiedName) (own : Ownership)
deriving DecidableEq, Repr

/-- Modelled from the spec: kind-specific payload of a Declaration:
fields of a struct/class, a method signature, or the ordered alternatives
of a tagged union. -/
inductive DeclPayload where
  | emptyPayload
  | structFields (fields : List (String × TypeRef))
  | methodSig (params : List TypeRef) (ret : TypeRef)
  | unionAlts (alts : List TypeRef)
deriving DecidableEq, Repr

/-- Modelled from the spec: a Declaration node of the Declaration Model,
identified by a fully qualified name, a kind tag, and a payload. -/
structure Declaration where
  qname : QualifiedName
  kind : DeclKind
  payload : DeclPayload
deriving DecidableEq, Repr

/-- Modelled from the spec: lookup of a Declaration by qualified name in
the (immutable) Declaration Model. -/
def lookup (model : List Declaration) (qn : QualifiedName) : Option Declaration :=
  model.find? (fun d => d.qname = qn)

/-! ## Generator core: generated symbols and target types -/

/-- Modelled from the spec: the generation-kind tag of a GeneratedSymbol. -/
inductive GenKind where
  | TypeDefinition
  | FreeFunctionWrapper
  | MethodWrapper
deriving DecidableEq, Repr

/-- Modelled from the spec: a GeneratedSymbol holds the target-language
name, the originating Declaration's qualified name, and a generation kind. -/
structure GeneratedSymbol where
  targetName : String
  originQName : QualifiedName
  kind : GenKind
deriving DecidableEq, Repr

/-- Modelled from the spec: the canonical target-language name of a type,
derived deterministically from the qualified name alone (owning namespace
path joined with the type name). -/
def canonicalName : QualifiedName → String
  | [] => ""
  | [n] => n
  | n :: rest => n ++ "_" ++ canonicalName rest

/-- The local (leaf) name of a qualified name; the target-language name
of a free-function or method wrapper, which is how the member method
my_namespace::MyPrimaryClass::method_broken and the free function
my_namespace::method_broken collide on the single name method_broken. -/
def leafName (qn : QualifiedName) : String := qn.getLastD ""

/-- Modelled from the spec: the target-language type descriptor produced
by the Type Mapper.  A sum type carries its variants with explicit
discriminant indices. -/
inductive TargetType where
  | prim (name : String)
  | record (name : String) (fields : List (String × TargetType))
  | sumType (name : String) (variants : List (Nat × TargetType))
  | sharedRef (inner : TargetType)
  | borrowedRef (inner : TargetType)
  | ownedRef (inner : TargetType)
deriving Repr

/-- Pair each element with its discriminant index, starting at a given
index; index 0 is the first declared alternative. -/
def enumerateFrom (start : Nat) : List TargetType → List (Nat × TargetType)
  | [] => []
  | t :: ts => (start, t) :: enumerateFrom (start + 1) ts

/-- Modelled from the spec: wrap a mapped type according to the ownership
qualifier of the TypeRef that referenced it; a value reference maps to
an inline value representation. -/
def applyOwnership : Ownership → TargetType → TargetType
  | .shared, t => .sharedRef t
  | .borrowed, t => .borrowedRef t
  | .owned, t => .ownedRef t
  | .value, t => t

/-- Modelled from the spec: per-symbol type-mapping failures.
FuelExhausted is a model artifact of the explicit recursion bound; the
termination theorem shows it is never returned at the default bound. -/
inductive MapError where
  | UnsupportedTypeError (qn : QualifiedName)
  | CyclicTypeError (qn : QualifiedName)
  | FuelExhausted
deriving DecidableEq, Repr

/-- Map a fallible function over a list, propagating the first error. -/
def mapExc {α β ε : Type} (f : α → Except ε β) : List α → Except ε (List β)
  | [] => .ok []
  | a :: as => do
    let b ← f a
    let bs ← mapExc f as
    pure (b :: bs)

/-- Modelled from the spec: the Type Mapper.  Recursively resolves a
TypeRef to a foreign representation, collecting the GeneratedSymbols of
every tagged union encountered (each registered under the canonical name
derived from the union's qualified name).  A qualified name that is
re-entered while still being resolved is a cyclic type reference and is
rejected with CyclicTypeError; the fuel argument makes the recursion
depth explicit. -/
def mapTypeF (model : List Declaration) :
    Nat → List QualifiedName → TypeRef →
      Except MapError (TargetType × List GeneratedSymbol)
  | 0, _, _ => .error .FuelExhausted
  | _ + 1, _, .prim n => .ok (.prim n, [])
  | fuel + 1, visited, .decl qn own =>
    if qn ∈ visited then .error (.CyclicTypeError qn)
    else
      match lookup model qn with
      | none => .error (.UnsupportedTypeError qn)
      | some d =>
        match d.kind, d.payload with
        | .Struct, .structFields fs | .Class, .structFields fs => do
          let rs ← mapExc (fun fl => do
            let r ← mapTypeF model fuel (qn :: visited) fl.2
            pure ((fl.1, r.1), r.2)) fs
          pure (applyOwnership own (.record (canonicalName qn) (rs.map Prod.fst)),
                (rs.map Prod.snd).flatten)
        | .TaggedUnion, .unionAlts alts => do
          let rs ← mapExc (mapTypeF model fuel (qn :: visited)) alts
          pure (applyOwnership own
                  (.sumType (canonicalName qn) (enumerateFrom 0 (rs.map Prod.fst))),
                ⟨canonicalName qn, qn, .TypeDefinition⟩ :: (rs.map Prod.snd).flatten)
        | _, _ => .error (.UnsupportedTypeError qn)

/-- The number of declarations of the model not yet being resolved: the
measure bounding the recursion depth of the Type Mapper. -/
def remaining (model : List Declaration) (visited : List QualifiedName) : Nat :=
  (model.filter (fun d => decide (d.qname ∉ visited))).length

/-- The default recursion bound: one more than the size of the model,
sufficient for every input since each resolution step marks a distinct
declaration as visited. -/
def defaultFuel (model : List Declaration) : Nat := model.length + 1

/-- Modelled from the spec: mapType resolves a TypeRef against the
Declaration Model. -/
def mapType (model : List Declaration) (t : TypeRef) :
    Except MapError (TargetType × List GeneratedSymbol) :=
  mapTypeF model (defaultFuel model) [] t

/-! ## Generator core: Symbol Table and Collision Detector -/

/-- Modelled from the spec: the result of claiming a target-language name. -/
inductive ClaimResult where
  | Accepted
  | ConflictsWith (existing : GeneratedSymbol)
deriving DecidableEq, Repr

/-- Modelled from the spec: `claim` on the Symbol Table.  A claim whose
target-language name is new is Accepted and recorded; a claim matching an
existing entry with the same originating qualified name and the same kind
is idempotent and Accepted; otherwise it ConflictsWith the existing entry.
The table is never overwritten. -/
def claim (tbl : List GeneratedSymbol) (s : GeneratedSymbol) :
    ClaimResult × List GeneratedSymbol :=
  match tbl.find? (fun e => e.targetName = s.targetName) with
  | none => (.Accepted, tbl ++ [s])
  | some e =>
    if e.originQName = s.originQName ∧ e.kind = s.kind then (.Accepted, tbl)
    else (.ConflictsWith e, tbl)

/-! ## Generator core: Exclusion Policy -/

/-- Modelled from the spec: an ExclusionRule marks a qualified name
(optionally restricted to one generation kind) as "do not emit". -/
structure ExclusionRule where
  qname : QualifiedName
  kindFilter : Option GenKind
deriving DecidableEq, Repr

/-- Whether a single rule matches a declaration's qualified name and
generation kind. -/
def ruleMatches (qn : QualifiedName) (k : GenKind) (r : ExclusionRule) : Bool :=
  r.qname = qn && (match r.kindFilter with
                   | none => true
                   | some k2 => k2 = k)

/-- Modelled from the spec: isExcluded checks the rules in registration
order; the first matching rule wins (only exact qualified-name matches
exist in this minimal core). -/
def isExcluded (rules : List ExclusionRule) (qn : QualifiedName) (k : GenKind) : Bool :=
  rules.any (ruleMatches qn k)

/-! ## Generator core: Binding Emitter -/

/-- Modelled from the spec: errors reported by a generation run.  A
SymbolConflictError names the conflicting target-language name and both
originating qualified names. -/
inductive GenError where
  | SymbolConflictError (targetName : String)
      (firstOrigin secondOrigin : QualifiedName)
  | TypeMapError (decl : QualifiedName) (e : MapError)
deriving DecidableEq, Repr

/-- The target-language name a conflict error is about, if any. -/
def conflictName : GenError → Option String
  | .SymbolConflictError n _ _ => some n
  | .TypeMapError _ _ => none

/-- The per-run state of the Binding Emitter: the Symbol Table in claim
order, the collected errors, and the target-language names found to be
in conflict (whose claimants are all withdrawn from live output). -/
structure GenState where
  table : List GeneratedSymbol
  errors : List GenError
  conflicted : List String
deriving DecidableEq, Repr

/-- Process one claim: record an accepted symbol, or record a
SymbolConflictError naming both originating declarations and mark the
target-language name as conflicted. -/
def processSym (st : GenState) (s : GeneratedSymbol) : GenState :=
  match claim st.table s with
  | (.Accepted, tbl) => { st with table := tbl }
  | (.ConflictsWith e, tbl) =>
    { table := tbl,
      errors := st.errors ++ [.SymbolConflictError s.targetName e.originQName s.originQName],
      conflicted := st.conflicted ++ [s.targetName] }

/-- The generation kind of the symbol a declaration produces; a namespace
produces none. -/
def genKindOf : DeclKind → Option GenKind
  | .Namespace => none
  | .Struct => some .TypeDefinition
  | .Class => some .TypeDefinition
  | .TaggedUnion => some .TypeDefinition
  | .Method => some .MethodWrapper
  | .FreeFunction => some .FreeFunctionWrapper

/-- The GeneratedSymbols a single declaration claims: for a method or
free function, the symbols of every tagged union referenced from its
signature followed by its own wrapper symbol under the leaf name; for a
type declaration, its own type-definition symbol under the canonical
name (for a tagged union, produced by the Type Mapper itself). -/
def symsFor (model : List Declaration) (d : Declaration) (gk : GenKind) :
    Except MapError (List GeneratedSymbol) :=
  match d.kind, d.payload with
  | .Method, .methodSig ps ret | .FreeFunction, .methodSig ps ret => do
    let rs ← mapExc (mapType model) (ps ++ [ret])
    pure ((rs.map Prod.snd).flatten ++ [⟨leafName d.qname, d.qname, gk⟩])
  | .TaggedUnion, _ => do
    let r ← mapType model (.decl d.qname .value)
    pure r.2
  | .Struct, _ | .Class, _ => do
    let r ← mapType model (.decl d.qname .value)
    pure (r.2 ++ [⟨canonicalName d.qname, d.qname, .TypeDefinition⟩])
  | _, _ => pure []

/-- Modelled from the spec: process one declaration.  An excluded
declaration is skipped before any Type Mapper call or Symbol Table claim;
a declaration whose types fail to map contributes a per-symbol error and
processing continues; otherwise each of its symbols is claimed. -/
def stepDecl (rules : List ExclusionRule) (model : List Declaration)
    (st : GenState) (d : Declaration) : GenState :=
  match genKindOf d.kind with
  | none => st
  | some gk =>
    if isExcluded rules d.qname gk then st
    else
      match symsFor model d gk with
      | .error e => { st with errors := st.errors ++ [.TypeMapError d.qname e] }
      | .ok syms => syms.foldl processSym st

/-- The empty per-run state. -/
def initState : GenState := ⟨[], [], []⟩

/-- One generation run over the whole declaration list: a single linear
pass threading the per-run state. -/
def runState (rules : List ExclusionRule) (decls : List Declaration) : GenState :=
  decls.foldl (stepDecl rules decls) initState

/-- Modelled from the spec: generate iterates the declarations in stable
order and returns the emitted symbols together with the collected errors.
Claimants of a conflicted target-language name are withdrawn from live
output (neither side of a conflict is emitted); errors never abort the
run. -/
def generate (rules : List ExclusionRule) (decls : List Declaration) :
    List GeneratedSymbol × List GenError :=
  let st := runState rules decls
  (st.table.filter (fun s => s.targetName ∉ st.conflicted), st.errors)

/-! ## The example declaration model of input.h -/

/-- The qualified name of MyProblematicClass::Variant. -/
def variantQN : QualifiedName := ["my_namespace", "MyProblematicClass", "Variant"]

/-- The qualified name of the member method MyPrimaryClass::method_broken. -/
def memberBrokenQN : QualifiedName :=
  ["my_namespace", "MyPrimaryClass", "method_broken"]

/-- The qualified name of the free function my_namespace::method_broken. -/
def freeBrokenQN : QualifiedName := ["my_namespace", "method_broken"]

/-- The Declaration Model of examples/namespace/src/input.h, in source
order: the four empty structs, MyProblematicClass and its Variant union
over shared_ptr X, shared_ptr Y, shared_ptr Z and Rect, the helper
make_variant, and MyPrimaryClass with its three methods followed by the
free function method_broken. -/
def exampleDecls : List Declaration :=
  [⟨["my_namespace", "X"], .Struct, .structFields []⟩,
   ⟨["my_namespace", "Y"], .Struct, .structFields []⟩,
   ⟨["my_namespace", "Z"], .Struct, .structFields []⟩,
   ⟨["my_namespace", "Rect"], .Struct, .structFields []⟩,
   ⟨["my_namespace", "MyProblematicClass"], .Class, .structFields []⟩,
   ⟨variantQN, .TaggedUnion, .unionAlts
     [.decl ["my_namespace", "X"] .shared,
      .decl ["my_namespace", "Y"] .shared,
      .decl ["my_namespace", "Z"] .shared,
      .decl ["my_namespace", "Rect"] .value]⟩,
   ⟨["my_namespace", "make_variant"], .FreeFunction,
     .methodSig [] (.decl variantQN .value)⟩,
   ⟨["my_namespace", "MyPrimaryClass"], .Class, .structFields []⟩,
   ⟨["my_namespace", "MyPrimaryClass", "method_one"], .Method,
     .methodSig [] (.prim "uint32_t")⟩,
   ⟨["my_namespace", "MyPrimaryClass", "method_two"], .Method,
     .methodSig [] (.prim "uint32_t")⟩,
   ⟨memberBrokenQN, .Method,
     .methodSig [.decl variantQN .borrowed] (.prim "uint32_t")⟩,
   ⟨freeBrokenQN, .FreeFunction,
     .methodSig [.decl variantQN .borrowed] (.prim "uint32_t")⟩]

/-- A Declaration Model with a genuinely cyclic type reference: union A
has an alternative referencing union B, which references A back. -/
def cyclicDecls : List Declaration :=
  [⟨["ns", "A"], .TaggedUnion, .unionAlts [.decl ["ns", "B"] .shared]⟩,
   ⟨["ns", "B"], .TaggedUnion, .unionAlts [.decl ["ns", "A"] .shared]⟩]

/-! ## Helper lemmas: mapExc and Except -/

theorem errBind {ε α β : Type} (e : ε) (k : α → Except ε β) :
    (do let a ← (Except.error e : Except ε α); k a) = .error e := rfl

theorem okBind {ε α β : Type} (x : α) (k : α → Except ε β) :
    (do let a ← (Except.ok x : Except ε α); k a) = k x := rfl

theorem bindPure_ok {ε α β : Type} (m : Except ε α) (k : α → β) (b : β) :
    ((do let a ← m; pure (k a) : Except ε β) = .ok b) ↔ ∃ a, m = .ok a ∧ k a = b := by
  cases m with
  | ok a =>
    rw [okBind]
    constructor
    · intro h
      exact ⟨a, rfl, Except.ok.inj h⟩
    · rintro ⟨a2, ha, hk⟩
      cases ha
      exact congrArg Except.ok hk
  | error e =>
    rw [errBind]
    constructor
    · intro h
      cases h
    · rintro ⟨a2, ha, hk⟩
      cases ha

theorem bindPure_ne_error {ε α β : Type} (m : Except ε α) (k : α → β) (e : ε)
    (h : m ≠ .error e) : (do let a ← m; pure (k a) : Except ε β) ≠ .error e := by
  cases m with
  | ok a =>
    rw [okBind]
    intro hc
    cases hc
  | error e2 =>
    rw [errBind]
    intro hc
    cases hc
    exact h rfl

theorem mapExc_nil {α β ε : Type} (f : α → Except ε β) : mapExc f [] = .ok [] := rfl

theorem mapExc_cons {α β ε : Type} (f : α → Except ε β) (a : α) (as : List α) :
    mapExc f (a :: as) =
      (do
        let b ← f a
        let bs ← mapExc f as
        pure (b :: bs)) := rfl

theorem mapExc_ne_error {α β ε : Type} (f : α → Except ε β)
    (l : List α) (e : ε) (hf : ∀ a ∈ l, f a ≠ .error e) :
    mapExc f l ≠ .error e := by
  induction l with
  | nil =>
    rw [mapExc_nil]
    intro hc
    cases hc
  | cons a as ih =>
    rw [mapExc_cons]
    cases hfa : f a with
    | error e2 =>
      rw [errBind]
      intro hc
      cases hc
      exact hf a (List.mem_cons_self a as) hfa
    | ok b =>
      rw [okBind]
      cases hrest : mapExc f as with
      | error e2 =>
        rw [errBind]
        intro hc
        cases hc
        exact ih (fun x hx => hf x (List.mem_cons_of_mem a hx)) hrest
      | ok bs =>
        rw [okBind]
        intro hc
        cases hc

theorem mapExc_ok_mem {α β ε : Type} (f : α → Except ε β) (l : List α)
    (rs : List β) (h : mapExc f l = .ok rs) :
    ∀ b ∈ rs, ∃ a ∈ l, f a = .ok b := by
  induction l generalizing rs with
  | nil =>
    rw [mapExc_nil] at h
    cases h
    intro b hb
    exact absurd hb (List.not_mem_nil b)
  | cons a as ih =>
    rw [mapExc_cons] at h
    cases hfa : f a with
    | error e2 =>
      rw [hfa, errBind] at h
      cases h
    | ok b0 =>
      rw [hfa, okBind] at h
      cases hrest : mapExc f as with
      | error e2 =>
        rw [hrest, errBind] at h
        cases h
      | ok bs =>
        rw [hrest, okBind] at h
        cases h
        intro b hb
        rcases List.mem_cons.mp hb with hb0 | hbs
        · exact ⟨a, List.mem_cons_self a as, hb0 ▸ hfa⟩
        · rcases ih bs hrest b hbs with ⟨a2, ha2, hfa2⟩
          exact ⟨a2, List.mem_cons_of_mem a ha2, hfa2⟩

theorem mapExc_ok_getElem {α β ε : Type} (f : α → Except ε β) (l : List α)
    (rs : List β) (h : mapExc f l = .ok rs) :
    rs.length = l.length ∧
    ∀ (k : Nat) (a : α), l[k]? = some a → ∃ b, f a = .ok b ∧ rs[k]? = some b := by
  induction l generalizing rs with
  | nil =>
    rw [mapExc_nil] at h
    cases h
    refine ⟨rfl, ?_⟩
    intro k a ha
    simp at ha
  | cons a as ih =>
    rw [mapExc_cons] at h
    cases hfa : f a with
    | error e2 =>
      rw [hfa, errBind] at h
      cases h
    | ok b0 =>
      rw [hfa, okBind] at h
      cases hrest : mapExc f as with
      | error e2 =>
        rw [hrest, errBind] at h
        cases h
      | ok bs =>
        rw [hrest, okBind] at h
        cases h
        rcases ih bs hrest with ⟨hlen, hget⟩
        refine ⟨by simp [hlen], ?_⟩
        intro k x hx
        cases k with
        | zero =>
          simp only [List.getElem?_cons_zero, Option.some.injEq] at hx
          exact ⟨b0, hx ▸ hfa, by simp⟩
        | succ k =>
          simp only [List.getElem?_cons_succ] at hx
          rcases hget k x hx with ⟨b, hb, hbk⟩
          exact ⟨b, hb, by simpa using hbk⟩

theorem flatten_eq_nil_of_all_nil {α : Type} (L : List (List α))
    (h : ∀ l ∈ L, l = []) : L.flatten = [] := by
  induction L with
  | nil => rfl
  | cons l ls ih =>
    rw [List.flatten_cons, h l (List.mem_cons_self l ls),
        ih (fun x hx => h x (List.mem_cons_of_mem l hx))]
    rfl

/-! ## Helper lemmas: the recursion measure -/

theorem remaining_le_length (model : List Declaration) (visited : List QualifiedName) :
    remaining model visited ≤ model.length :=
  List.length_filter_le _ model

theorem remaining_mono (model : List Declaration) (visited : List QualifiedName)
    (q : QualifiedName) :
    remaining model (q :: visited) ≤ remaining model visited := by
  unfold remaining
  refine List.Sublist.length_le (List.monotone_filter_right _ ?_)
  intro d hd
  simp only [decide_eq_true_eq] at hd ⊢
  exact fun hc => hd (List.mem_cons_of_mem q hc)

theorem remaining_lt (model : List Declaration) (visited : List QualifiedName)
    (qn : QualifiedName) (d : Declaration) (hnv : qn ∉ visited)
    (hl : lookup model qn = some d) :
    remaining model (qn :: visited) < remaining model visited := by
  induction model with
  | nil => cases hl
  | cons d0 ds ih =>
    unfold lookup at hl ih
    unfold remaining
    by_cases h0 : d0.qname = qn
    · have hpos : (decide (d0.qname ∉ visited)) = true :=
        decide_eq_true (h0 ▸ hnv)
      have hneg : ¬ ((decide (d0.qname ∉ qn :: visited)) = true) := by
        simp only [decide_eq_true_eq]
        intro hc
        exact hc (h0 ▸ List.mem_cons_self qn visited)
      rw [List.filter_cons, List.filter_cons, if_pos hpos, if_neg hneg, List.length_cons]
      exact Nat.lt_succ_of_le (remaining_mono ds visited qn)
    · rw [List.find?_cons_of_neg ds (by simpa using h0)] at hl
      have hlt := ih hl
      unfold remaining at hlt
      by_cases h2 : d0.qname ∈ visited
      · have hneg1 : ¬ ((decide (d0.qname ∉ qn :: visited)) = true) := by
          simp only [decide_eq_true_eq]
          exact fun hc => hc (List.mem_cons_of_mem qn h2)
        have hneg2 : ¬ ((decide (d0.qname ∉ visited)) = true) := by
          simp only [decide_eq_true_eq]
          exact fun hc => hc h2
        rw [List.filter_cons, List.filter_cons, if_neg hneg1, if_neg hneg2]
        exact hlt
      · have hpos1 : (decide (d0.qname ∉ qn :: visited)) = true := by
          simp only [decide_eq_true_eq, List.mem_cons]
          exact fun hc => hc.elim h0 h2
        have hpos2 : (decide (d0.qname ∉ visited)) = true := decide_eq_true h2
        rw [List.filter_cons, List.filter_cons, if_pos hpos1, if_pos hpos2,
            List.length_cons, List.length_cons]
        exact Nat.succ_lt_succ hlt

/-! ## Helper lemmas: unfolding the Type Mapper -/

theorem mapTypeF_zero (model : List Declaration) (visited : List QualifiedName)
    (t : TypeRef) : mapTypeF model 0 visited t = .error .FuelExhausted := rfl

theorem mapTypeF_prim (model : List Declaration) (fuel : Nat)
    (visited : List QualifiedName) (n : String) :
    mapTypeF model (fuel + 1) visited (.prim n) = .ok (.prim n, []) := rfl

theorem mapTypeF_decl_visited (model : List Declaration) (fuel : Nat)
    (visited : List QualifiedName) (qn : QualifiedName) (own : Ownership)
    (h : qn ∈ visited) :
    mapTypeF model (fuel + 1) visited (.decl qn own) = .error (.CyclicTypeError qn) := by
  rw [mapTypeF, if_pos h]

theorem mapTypeF_decl_none (model : List Declaration) (fuel : Nat)
    (visited : List QualifiedName) (qn : QualifiedName) (own : Ownership)
    (h1 : qn ∉ visited) (h2 : lookup model qn = none) :
    mapTypeF model (fuel + 1) visited (.decl qn own) =
      .error (.UnsupportedTypeError qn) := by
  rw [mapTypeF, if_neg h1, h2]

theorem mapTypeF_decl_struct (model : List Declaration) (fuel : Nat)
    (visited : List QualifiedName) (qn : QualifiedName) (own : Ownership)
    (dq : QualifiedName) (fs : List (String × TypeRef))
    (h1 : qn ∉ visited)
    (h2 : lookup model qn = some ⟨dq, .Struct, .structFields fs⟩) :
    mapTypeF model (fuel + 1) visited (.decl qn own) =
      (do
        let rs ← mapExc (fun fl => do
          let r ← mapTypeF model fuel (qn :: visited) fl.2
          pure ((fl.1, r.1), r.2)) fs
        pure (applyOwnership own (.record (canonicalName qn) (rs.map Prod.fst)),
              (rs.map Prod.snd).flatten)) := by
  rw [mapTypeF, if_neg h1, h2]

theorem mapTypeF_decl_class (model : List Declaration) (fuel : Nat)
    (visited : List QualifiedName) (qn : QualifiedName) (own : Ownership)
    (dq : QualifiedName) (fs : List (String × TypeRef))
    (h1 : qn ∉ visited)
    (h2 : lookup model qn = some ⟨dq, .Class, .structFields fs⟩) :
    mapTypeF model (fuel + 1) visited (.decl qn own) =
      (do
        let rs ← mapExc (fun fl => do
          let r ← mapTypeF model fuel (qn :: visited) fl.2
          pure ((fl.1, r.1), r.2)) fs
        pure (applyOwnership own (.record (canonicalName qn) (rs.map Prod.fst)),
              (rs.map Prod.snd).flatten)) := by
  rw [mapTypeF, if_neg h1, h2]

theorem mapTypeF_decl_union (model : List Declaration) (fuel : Nat)
    (visited : List QualifiedName) (qn : QualifiedName) (own : Ownership)
    (dq : QualifiedName) (alts : List TypeRef)
    (h1 : qn ∉ visited)
    (h2 : lookup model qn = some ⟨dq, .TaggedUnion, .unionAlts alts⟩) :
    mapTypeF model (fuel + 1) visited (.decl qn own) =
      (do
        let rs ← mapExc (mapTypeF model fuel (qn :: visited)) alts
        pure (applyOwnership own
                (.sumType (canonicalName qn) (enumerateFrom 0 (rs.map Prod.fst))),
              ⟨canonicalName qn, qn, .TypeDefinition⟩ :: (rs.map Prod.snd).flatten)) := by
  rw [mapTypeF, if_neg h1, h2]

/-! ## Termination of the Type Mapper -/

theorem mapTypeF_ne_fuelExhausted (fuel : Nat) :
    ∀ (model : List Declaration) (visited : List QualifiedName) (t : TypeRef),
      remaining model visited < fuel →
      mapTypeF model fuel visited t ≠ .error .FuelExhausted := by
  induction fuel with
  | zero =>
    intro model visited t h
    exact absurd h (Nat.not_lt_zero _)
  | succ fuel ih =>
    intro model visited t h
    cases t with
    | prim n =>
      rw [mapTypeF_prim]
      intro hc
      cases hc
    | decl qn own =>
      by_cases hv : qn ∈ visited
      · rw [mapTypeF_decl_visited model fuel visited qn own hv]
        intro hc
        exact MapError.noConfusion (Except.error.inj hc)
      · cases hlk : lookup model qn with
        | none =>
          rw [mapTypeF_decl_none model fuel visited qn own hv hlk]
          intro hc
          exact MapError.noConfusion (Except.error.inj hc)
        | some d =>
          have hrem : remaining model (qn :: visited) < fuel :=
            Nat.lt_of_lt_of_le (remaining_lt model visited qn d hv hlk)
              (Nat.lt_succ_iff.mp h)
          rw [mapTypeF, if_neg hv, hlk]
          rcases d with ⟨dq, dk, dp⟩
          cases dk <;> cases dp
          all_goals try (intro hc; exact MapError.noConfusion (Except.error.inj hc))
          · exact bindPure_ne_error _ _ _
              (mapExc_ne_error _ _ _
                (fun fl _ => bindPure_ne_error _ _ _ (ih model (qn :: visited) fl.2 hrem)))
          · exact bindPure_ne_error _ _ _
              (mapExc_ne_error _ _ _
                (fun fl _ => bindPure_ne_error _ _ _ (ih model (qn :: visited) fl.2 hrem)))
          · exact bindPure_ne_error _ _ _
              (mapExc_ne_error _ _ _
                (fun a _ => ih model (qn :: visited) a hrem))

theorem mapType_ne_fuelExhausted (model : List Declaration) (t : TypeRef) :
    mapType model t ≠ .error .FuelExhausted :=
  mapTypeF_ne_fuelExhausted (defaultFuel model) model [] t
    (Nat.lt_succ_of_le (remaining_le_length model []))

/-! ## Helper lemmas: the Symbol Table -/

theorem claim_of_find_none (tbl : List GeneratedSymbol) (s : GeneratedSymbol)
    (h : tbl.find? (fun e => e.targetName = s.targetName) = none) :
    claim tbl s = (.Accepted, tbl ++ [s]) := by
  rw [claim, h]

theorem claim_of_find_same (tbl : List GeneratedSymbol) (s e : GeneratedSymbol)
    (h : tbl.find? (fun e => e.targetName = s.targetName) = some e)
    (ho : e.originQName = s.originQName) (hk : e.kind = s.kind) :
    claim tbl s = (.Accepted, tbl) := by
  rw [claim, h]
  exact if_pos ⟨ho, hk⟩

theorem claim_of_find_diff (tbl : List GeneratedSymbol) (s e : GeneratedSymbol)
    (h : tbl.find? (fun e => e.targetName = s.targetName) = some e)
    (hd : ¬(e.originQName = s.originQName ∧ e.kind = s.kind)) :
    claim tbl s = (.ConflictsWith e, tbl) := by
  rw [claim, h]
  exact if_neg hd

theorem claim_snd_append (tbl : List GeneratedSymbol) (s : GeneratedSymbol) :
    ∃ t, (claim tbl s).2 = tbl ++ t := by
  cases hf : tbl.find? (fun e => e.targetName = s.targetName) with
  | none =>
    rw [claim_of_find_none tbl s hf]
    exact ⟨[s], rfl⟩
  | some e =>
    by_cases hc : e.originQName = s.originQName ∧ e.kind = s.kind
    · rw [claim_of_find_same tbl s e hf hc.1 hc.2]
      exact ⟨[], (List.append_nil tbl).symm⟩
    · rw [claim_of_find_diff tbl s e hf hc]
      exact ⟨[], (List.append_nil tbl).symm⟩

theorem claim_snd_nodup (tbl : List GeneratedSymbol) (s : GeneratedSymbol)
    (h : (tbl.map (fun e => e.targetName)).Nodup) :
    (((claim tbl s).2).map (fun e => e.targetName)).Nodup := by
  cases hf : tbl.find? (fun e => e.targetName = s.targetName) with
  | none =>
    rw [claim_of_find_none tbl s hf]
    have hnm : s.targetName ∉ tbl.map (fun e => e.targetName) := by
      intro hmem
      rcases List.mem_map.mp hmem with ⟨e, he, hne⟩
      have := (List.find?_eq_none.mp hf) e he
      simp only [decide_eq_true_eq] at this
      exact this hne
    rw [List.map_append]
    exact List.Nodup.append h (List.nodup_singleton _)
      (by
        intro x hx hx2
        rcases List.mem_singleton.mp hx2 with rfl
        exact hnm hx)
  | some e =>
    by_cases hc : e.originQName = s.originQName ∧ e.kind = s.kind
    · rw [claim_of_find_same tbl s e hf hc.1 hc.2]
      exact h
    · rw [claim_of_find_diff tbl s e hf hc]
      exact h

theorem processSym_table (st : GenState) (s : GeneratedSymbol) :
    (processSym st s).table = (claim st.table s).2 := by
  unfold processSym
  rcases hc : claim st.table s with ⟨res, tbl⟩
  cases res <;> rfl

theorem processSym_inv (st : GenState) (s : GeneratedSymbol)
    (h : st.conflicted = st.errors.filterMap conflictName) :
    (processSym st s).conflicted = ((processSym st s).errors).filterMap conflictName := by
  unfold processSym
  rcases hc : claim st.table s with ⟨res, tbl⟩
  cases res with
  | Accepted => exact h
  | ConflictsWith e =>
    simp only [List.filterMap_append, h]
    rfl

theorem processSym_errors_append (st : GenState) (s : GeneratedSymbol) :
    ∃ t, (processSym st s).errors = st.errors ++ t := by
  unfold processSym
  rcases hc : claim st.table s with ⟨res, tbl⟩
  cases res with
  | Accepted => exact ⟨[], (List.append_nil _).symm⟩
  | ConflictsWith e => exact ⟨_, rfl⟩

theorem processSym_table_append (st : GenState) (s : GeneratedSymbol) :
    ∃ t, (processSym st s).table = st.table ++ t := by
  rw [processSym_table]
  exact claim_snd_append st.table s

theorem foldl_processSym_inv (syms : List GeneratedSymbol) :
    ∀ st : GenState, st.conflicted = st.errors.filterMap conflictName →
      (syms.foldl processSym st).conflicted =
        ((syms.foldl processSym st).errors).filterMap conflictName := by
  induction syms with
  | nil => intro st h; exact h
  | cons s ss ih =>
    intro st h
    exact ih (processSym st s) (processSym_inv st s h)

theorem foldl_processSym_table_nodup (syms : List GeneratedSymbol) :
    ∀ st : GenState, ((st.table).map (fun e => e.targetName)).Nodup →
      (((syms.foldl processSym st).table).map (fun e => e.targetName)).Nodup := by
  induction syms with
  | nil => intro st h; exact h
  | cons s ss ih =>
    intro st h
    refine ih (processSym st s) ?_
    rw [processSym_table]
    exact claim_snd_nodup st.table s h

theorem foldl_processSym_errors_append (syms : List GeneratedSymbol) :
    ∀ st : GenState, ∃ t, (syms.foldl processSym st).errors = st.errors ++ t := by
  induction syms with
  | nil => intro st; exact ⟨[], (List.append_nil _).symm⟩
  | cons s ss ih =>
    intro st
    rcases processSym_errors_append st s with ⟨t1, h1⟩
    rcases ih (processSym st s) with ⟨t2, h2⟩
    exact ⟨t1 ++ t2, by rw [List.foldl_cons, h2, h1, List.append_assoc]⟩

theorem foldl_processSym_table_append (syms : List GeneratedSymbol) :
    ∀ st : GenState, ∃ t, (syms.foldl processSym st).table = st.table ++ t := by
  induction syms with
  | nil => intro st; exact ⟨[], (List.append_nil _).symm⟩
  | cons s ss ih =>
    intro st
    rcases processSym_table_append st s with ⟨t1, h1⟩
    rcases ih (processSym st s) with ⟨t2, h2⟩
    exact ⟨t1 ++ t2, by rw [List.foldl_cons, h2, h1, List.append_assoc]⟩

theorem stepDecl_of_kind_none (rules : List ExclusionRule) (model : List Declaration)
    (st : GenState) (d : Declaration) (h : genKindOf d.kind = none) :
    stepDecl rules model st d = st := by
  unfold stepDecl
  rw [h]

theorem stepDecl_of_excluded (rules : List ExclusionRule) (model : List Declaration)
    (st : GenState) (d : Declaration) (gk : GenKind)
    (hg : genKindOf d.kind = some gk) (he : isExcluded rules d.qname gk = true) :
    stepDecl rules model st d = st := by
  simp only [stepDecl, hg, he, if_true]

theorem stepDecl_of_mapError (rules : List ExclusionRule) (model : List Declaration)
    (st : GenState) (d : Declaration) (gk : GenKind) (e : MapError)
    (hg : genKindOf d.kind = some gk) (he : isExcluded rules d.qname gk = false)
    (hs : symsFor model d gk = .error e) :
    stepDecl rules model st d =
      { st with errors := st.errors ++ [.TypeMapError d.qname e] } := by
  simp only [stepDecl, hg, he, hs, Bool.false_eq_true, if_false]

theorem stepDecl_of_ok (rules : List ExclusionRule) (model : List Declaration)
    (st : GenState) (d : Declaration) (gk : GenKind) (syms : List GeneratedSymbol)
    (hg : genKindOf d.kind = some gk) (he : isExcluded rules d.qname gk = false)
    (hs : symsFor model d gk = .ok syms) :
    stepDecl rules model st d = syms.foldl processSym st := by
  simp only [stepDecl, hg, he, hs, Bool.false_eq_true, if_false]

theorem stepDecl_inv (rules : List ExclusionRule) (model : List Declaration)
    (st : GenState) (d : Declaration)
    (h : st.conflicted = st.errors.filterMap conflictName) :
    (stepDecl rules model st d).conflicted =
      ((stepDecl rules model st d).errors).filterMap conflictName := by
  cases hg : genKindOf d.kind with
  | none => rw [stepDecl_of_kind_none rules model st d hg]; exact h
  | some gk =>
    cases he : isExcluded rules d.qname gk with
    | true => rw [stepDecl_of_excluded rules model st d gk hg he]; exact h
    | false =>
      cases hs : symsFor model d gk with
      | error e =>
        rw [stepDecl_of_mapError rules model st d gk e hg he hs]
        simp [List.filterMap_append, h, conflictName]
      | ok syms =>
        rw [stepDecl_of_ok rules model st d gk syms hg he hs]
        exact foldl_processSym_inv syms st h

theorem stepDecl_table_nodup (rules : List ExclusionRule) (model : List Declaration)
    (st : GenState) (d : Declaration)
    (h : ((st.table).map (fun e => e.targetName)).Nodup) :
    (((stepDecl rules model st d).table).map (fun e => e.targetName)).Nodup := by
  cases hg : genKindOf d.kind with
  | none => rw [stepDecl_of_kind_none rules model st d hg]; exact h
  | some gk =>
    cases he : isExcluded rules d.qname gk with
    | true => rw [stepDecl_of_excluded rules model st d gk hg he]; exact h
    | false =>
      cases hs : symsFor model d gk with
      | error e =>
        rw [stepDecl_of_mapError rules model st d gk e hg he hs]
        exact h
      | ok syms =>
        rw [stepDecl_of_ok rules model st d gk syms hg he hs]
        exact foldl_processSym_table_nodup syms st h

theorem stepDecl_errors_append (rules : List ExclusionRule) (model : List Declaration)
    (st : GenState) (d : Declaration) :
    ∃ t, (stepDecl rules model st d).errors = st.errors ++ t := by
  cases hg : genKindOf d.kind with
  | none =>
    rw [stepDecl_of_kind_none rules model st d hg]
    exact ⟨[], (List.append_nil _).symm⟩
  | some gk =>
    cases he : isExcluded rules d.qname gk with
    | true =>
      rw [stepDecl_of_excluded rules model st d gk hg he]
      exact ⟨[], (List.append_nil _).symm⟩
    | false =>
      cases hs : symsFor model d gk with
      | error e =>
        rw [stepDecl_of_mapError rules model st d gk e hg he hs]
        exact ⟨_, rfl⟩
      | ok syms =>
        rw [stepDecl_of_ok rules model st d gk syms hg he hs]
        exact foldl_processSym_errors_append syms st

theorem stepDecl_table_append (rules : List ExclusionRule) (model : List Declaration)
    (st : GenState) (d : Declaration) :
    ∃ t, (stepDecl rules model st d).table = st.table ++ t := by
  cases hg : genKindOf d.kind with
  | none =>
    rw [stepDecl_of_kind_none rules model st d hg]
    exact ⟨[], (List.append_nil _).symm⟩
  | some gk =>
    cases he : isExcluded rules d.qname gk with
    | true =>
      rw [stepDecl_of_excluded rules model st d gk hg he]
      exact ⟨[], (List.append_nil _).symm⟩
    | false =>
      cases hs : symsFor model d gk with
      | error e =>
        rw [stepDecl_of_mapError rules model st d gk e hg he hs]
        exact ⟨[], (List.append_nil _).symm⟩
      | ok syms =>
        rw [stepDecl_of_ok rules model st d gk syms hg he hs]
        exact foldl_processSym_table_append syms st

theorem runState_inv (rules : List ExclusionRule) (decls : List Declaration) :
    (runState rules decls).conflicted =
      ((runState rules decls).errors).filterMap conflictName := by
  unfold runState
  have main : ∀ (l : List Declaration) (st : GenState),
      st.conflicted = st.errors.filterMap conflictName →
      (l.foldl (stepDecl rules decls) st).conflicted =
        ((l.foldl (stepDecl rules decls) st).errors).filterMap conflictName := by
    intro l
    induction l with
    | nil => intro st h; exact h
    | cons d ds ih =>
      intro st h
      exact ih (stepDecl rules decls st d) (stepDecl_inv rules decls st d h)
  exact main decls initState rfl

theorem runState_table_nodup (rules : List ExclusionRule) (decls : List Declaration) :
    (((runState rules decls).table).map (fun e => e.targetName)).Nodup := by
  unfold runState
  have main : ∀ (l : List Declaration) (st : GenState),
      ((st.table).map (fun e => e.targetName)).Nodup →
      (((l.foldl (stepDecl rules decls) st).table).map (fun e => e.targetName)).Nodup := by
    intro l
    induction l with
    | nil => intro st h; exact h
    | cons d ds ih =>
      intro st h
      exact ih (stepDecl rules decls st d) (stepDecl_table_nodup rules decls st d h)
  exact main decls initState List.nodup_nil

/-! ## Helper lemmas: collected union symbols are canonically named -/

theorem mapTypeF_syms_canonical (fuel : Nat) :
    ∀ (model : List Declaration) (visited : List QualifiedName) (t : TypeRef)
      (r : TargetType) (syms : List GeneratedSymbol),
      mapTypeF model fuel visited t = .ok (r, syms) →
      ∀ s ∈ syms,
        s.targetName = canonicalName s.originQName ∧ s.kind = .TypeDefinition := by
  induction fuel with
  | zero =>
    intro model visited t r syms h
    rw [mapTypeF_zero] at h
    cases h
  | succ fuel ih =>
    intro model visited t r syms h
    cases t with
    | prim n =>
      rw [mapTypeF_prim] at h
      rw [Except.ok.injEq, Prod.mk.injEq] at h
      rcases h with ⟨_, h2⟩
      intro s hs
      rw [← h2] at hs
      exact absurd hs (List.not_mem_nil s)
    | decl qn own =>
      by_cases hv : qn ∈ visited
      · rw [mapTypeF_decl_visited model fuel visited qn own hv] at h
        cases h
      · cases hlk : lookup model qn with
        | none =>
          rw [mapTypeF_decl_none model fuel visited qn own hv hlk] at h
          cases h
        | some d =>
          rcases d with ⟨dq, dk, dp⟩
          cases dk <;> cases dp
          all_goals
            first
            | (rw [mapTypeF, if_neg hv, hlk] at h; cases h)
            | skip
          -- remaining: Struct/structFields, Class/structFields, TaggedUnion/unionAlts
          · rename_i fs
            rw [mapTypeF_decl_struct model fuel visited qn own dq fs hv hlk] at h
            rcases (bindPure_ok _ _ _).mp h with ⟨rs, hrs, hpair⟩
            rw [Prod.mk.injEq] at hpair
            rcases hpair with ⟨_, hsyms⟩
            intro s hs
            rw [← hsyms] at hs
            rcases List.mem_flatten.mp hs with ⟨l, hl, hsl⟩
            rcases List.mem_map.mp hl with ⟨pr, hpr, hprl⟩
            rcases mapExc_ok_mem _ _ _ hrs pr hpr with ⟨fl, _, hfl⟩
            rcases (bindPure_ok _ _ _).mp hfl with ⟨r0, hr0, hpr0⟩
            have hsl2 : s ∈ r0.2 := by
              rw [← hprl] at hsl
              rw [← hpr0] at hsl
              exact hsl
            exact ih model (qn :: visited) fl.2 r0.1 r0.2 hr0 s hsl2
          · rename_i fs
            rw [mapTypeF_decl_class model fuel visited qn own dq fs hv hlk] at h
            rcases (bindPure_ok _ _ _).mp h with ⟨rs, hrs, hpair⟩
            rw [Prod.mk.injEq] at hpair
            rcases hpair with ⟨_, hsyms⟩
            intro s hs
            rw [← hsyms] at hs
            rcases List.mem_flatten.mp hs with ⟨l, hl, hsl⟩
            rcases List.mem_map.mp hl with ⟨pr, hpr, hprl⟩
            rcases mapExc_ok_mem _ _ _ hrs pr hpr with ⟨fl, _, hfl⟩
            rcases (bindPure_ok _ _ _).mp hfl with ⟨r0, hr0, hpr0⟩
            have hsl2 : s ∈ r0.2 := by
              rw [← hprl] at hsl
              rw [← hpr0] at hsl
              exact hsl
            exact ih model (qn :: visited) fl.2 r0.1 r0.2 hr0 s hsl2
          · rename_i alts
            rw [mapTypeF_decl_union model fuel visited qn own dq alts hv hlk] at h
            rcases (bindPure_ok _ _ _).mp h with ⟨rs, hrs, hpair⟩
            rw [Prod.mk.injEq] at hpair
            rcases hpair with ⟨_, hsyms⟩
            intro s hs
            rw [← hsyms] at hs
            rcases List.mem_cons.mp hs with hself | hrest
            · rw [hself]
              exact ⟨rfl, rfl⟩
            · rcases List.mem_flatten.mp hrest with ⟨l, hl, hsl⟩
              rcases List.mem_map.mp hl with ⟨pr, hpr, hprl⟩
              rcases mapExc_ok_mem _ _ _ hrs pr hpr with ⟨a, _, ha⟩
              have hsl2 : s ∈ pr.2 := by
                rw [← hprl] at hsl
                exact hsl
              exact ih model (qn :: visited) a pr.1 pr.2 ha s hsl2

/-! ## Helper lemmas: discriminant order and plain records -/

theorem enumerateFrom_getElem (l : List TargetType) :
    ∀ (s k : Nat), (enumerateFrom s l)[k]? = l[k]?.map (fun t => (s + k, t)) := by
  induction l with
  | nil =>
    intro s k
    simp [enumerateFrom]
  | cons t ts ih =>
    intro s k
    cases k with
    | zero => simp [enumerateFrom]
    | succ k =>
      simp only [enumerateFrom, List.getElem?_cons_succ]
      rw [ih (s + 1) k]
      have harith : s + 1 + k = s + (k + 1) := by omega
      rw [harith]

theorem mapExc_cons_ok {α β ε : Type} (f : α → Except ε β) (a : α) (as : List α)
    (b : β) (bs : List β) (ha : f a = .ok b) (has : mapExc f as = .ok bs) :
    mapExc f (a :: as) = .ok (b :: bs) := by
  rw [mapExc_cons, ha, okBind, has, okBind]
  rfl

theorem mapExc_structFields_ok (model : List Declaration) (fuel : Nat)
    (visited : List QualifiedName) :
    ∀ fs : List (String × TypeRef),
      (∀ fl ∈ fs, ∃ t, mapTypeF model fuel visited fl.2 = .ok (t, [])) →
      ∃ rs, mapExc (fun fl => do
              let r ← mapTypeF model fuel visited fl.2
              pure ((fl.1, r.1), r.2)) fs = .ok rs ∧
            ∀ pr ∈ rs, pr.2 = ([] : List GeneratedSymbol) := by
  intro fs
  induction fs with
  | nil =>
    intro h
    exact ⟨[], rfl, by intro pr hpr; exact absurd hpr (List.not_mem_nil pr)⟩
  | cons fl fs ih =>
    intro h
    rcases h fl (List.mem_cons_self fl fs) with ⟨t, ht⟩
    rcases ih (fun x hx => h x (List.mem_cons_of_mem fl hx)) with ⟨rs, hrs, hall⟩
    refine ⟨((fl.1, t), []) :: rs, ?_, ?_⟩
    · exact mapExc_cons_ok _ fl fs ((fl.1, t), []) rs
        ((bindPure_ok _ _ _).mpr ⟨(t, []), ht, rfl⟩) hrs
    · intro pr hpr
      rcases List.mem_cons.mp hpr with h0 | hmem
      · rw [h0]
      · exact hall pr hmem

theorem mapTypeF_union_discriminants (model : List Declaration) (fuel : Nat)
    (visited : List QualifiedName) (qn : QualifiedName) (dq : QualifiedName)
    (alts : List TypeRef) (rs : List (TargetType × List GeneratedSymbol))
    (hv : qn ∉ visited)
    (hlk : lookup model qn = some ⟨dq, .TaggedUnion, .unionAlts alts⟩)
    (hrs : mapExc (mapTypeF model fuel (qn :: visited)) alts = .ok rs) :
    mapTypeF model (fuel + 1) visited (.decl qn .value) =
      .ok (.sumType (canonicalName qn) (enumerateFrom 0 (rs.map Prod.fst)),
           ⟨canonicalName qn, qn, .TypeDefinition⟩ :: (rs.map Prod.snd).flatten) ∧
    rs.length = alts.length ∧
    ∀ (k : Nat) (a : TypeRef), alts[k]? = some a →
      ∃ b, mapTypeF model fuel (qn :: visited) a = .ok b ∧
        (enumerateFrom 0 (rs.map Prod.fst))[k]? = some (k, b.1) := by
  refine ⟨?_, ?_, ?_⟩
  · rw [mapTypeF_decl_union model fuel visited qn .value dq alts hv hlk, hrs, okBind]
    rfl
  · exact (mapExc_ok_getElem _ _ _ hrs).1
  · intro k a ha
    rcases (mapExc_ok_getElem _ _ _ hrs).2 k a ha with ⟨b, hb, hbk⟩
    refine ⟨b, hb, ?_⟩
    rw [enumerateFrom_getElem (rs.map Prod.fst) 0 k, List.getElem?_map, hbk]
    simp

theorem mapTypeF_struct_plain (model : List Declaration) (fuel : Nat)
    (visited : List QualifiedName) (qn : QualifiedName) (own : Ownership)
    (dq : QualifiedName) (fs : List (String × TypeRef))
    (hv : qn ∉ visited)
    (hlk : lookup model qn = some ⟨dq, .Struct, .structFields fs⟩)
    (hfields : ∀ fl ∈ fs, ∃ t, mapTypeF model fuel (qn :: visited) fl.2 = .ok (t, [])) :
    ∃ rfs, mapTypeF model (fuel + 1) visited (.decl qn own) =
      .ok (applyOwnership own (.record (canonicalName qn) rfs), []) := by
  rcases mapExc_structFields_ok model fuel (qn :: visited) fs hfields with ⟨rs, hrs, hall⟩
  refine ⟨rs.map Prod.fst, ?_⟩
  rw [mapTypeF_decl_struct model fuel visited qn own dq fs hv hlk, hrs, okBind]
  have hflat : (rs.map Prod.snd).flatten = ([] : List GeneratedSymbol) := by
    refine flatten_eq_nil_of_all_nil _ ?_
    intro l hl
    rcases List.mem_map.mp hl with ⟨pr, hpr, hprl⟩
    rw [← hprl]
    exact hall pr hpr
  rw [hflat]
  rfl

theorem mapTypeF_class_plain (model : List Declaration) (fuel : Nat)
    (visited : List QualifiedName) (qn : QualifiedName) (own : Ownership)
    (dq : QualifiedName) (fs : List (String × TypeRef))
    (hv : qn ∉ visited)
    (hlk : lookup model qn = some ⟨dq, .Class, .structFields fs⟩)
    (hfields : ∀ fl ∈ fs, ∃ t, mapTypeF model fuel (qn :: visited) fl.2 = .ok (t, [])) :
    ∃ rfs, mapTypeF model (fuel + 1) visited (.decl qn own) =
      .ok (applyOwnership own (.record (canonicalName qn) rfs), []) := by
  rcases mapExc_structFields_ok model fuel (qn :: visited) fs hfields with ⟨rs, hrs, hall⟩
  refine ⟨rs.map Prod.fst, ?_⟩
  rw [mapTypeF_decl_class model fuel visited qn own dq fs hv hlk, hrs, okBind]
  have hflat : (rs.map Prod.snd).flatten = ([] : List GeneratedSymbol) := by
    refine flatten_eq_nil_of_all_nil _ ?_
    intro l hl
    rcases List.mem_map.mp hl with ⟨pr, hpr, hprl⟩
    rw [← hprl]
    exact hall pr hpr
  rw [hflat]
  rfl

/-! ## Claim theorems -/

/-- Claim C1: two declarations with distinct qualified names mapping to the
same target-language name produce exactly one SymbolConflictError that
references both originating declarations, and neither declaration appears
in the emitted output.  In general, no emitted symbol carries a
target-language name reported by any SymbolConflictError; on the example
header, the member method my_namespace::MyPrimaryClass::method_broken and
the free function my_namespace::method_broken yield exactly one conflict
error naming both, and neither origin is emitted. -/
theorem generate_reports_one_conflict_and_emits_neither :
    (∀ (rules : List ExclusionRule) (decls : List Declaration) (n : String)
        (o1 o2 : QualifiedName),
        GenError.SymbolConflictError n o1 o2 ∈ (generate rules decls).2 →
        ∀ s ∈ (generate rules decls).1, s.targetName ≠ n)
    ∧ (generate [] exampleDecls).2 =
        [.SymbolConflictError "method_broken" memberBrokenQN freeBrokenQN]
    ∧ (∀ s ∈ (generate [] exampleDecls).1,
        s.originQName ≠ memberBrokenQN ∧ s.originQName ≠ freeBrokenQN) := by
  refine ⟨?_, by decide, by decide⟩
  intro rules decls n o1 o2 hmem s hs heq
  simp only [generate] at hmem hs
  rcases List.mem_filter.mp hs with ⟨-, hpred⟩
  have hnotin : s.targetName ∉ (runState rules decls).conflicted :=
    of_decide_eq_true hpred
  have hn : n ∈ (runState rules decls).conflicted := by
    rw [runState_inv]
    exact List.mem_filterMap.mpr ⟨_, hmem, rfl⟩
  rw [heq] at hnotin
  exact hnotin hn

/-- Witness for C1: the emitted symbol for struct X does not carry the
conflicted name method_broken. -/
theorem generate_reports_one_conflict_and_emits_neither_witness :
    ((⟨"my_namespace_X", ["my_namespace", "X"], .TypeDefinition⟩ :
        GeneratedSymbol)).targetName ≠ "method_broken" :=
  generate_reports_one_conflict_and_emits_neither.1 [] exampleDecls "method_broken"
    memberBrokenQN freeBrokenQN (by decide)
    ⟨"my_namespace_X", ["my_namespace", "X"], .TypeDefinition⟩ (by decide)

/-- Claim C2: every GeneratedSymbol the Type Mapper collects for a tagged
union carries the canonical target-language name derived deterministically
from the union's own qualified name (never from the call site), the symbol
table of a run never holds two symbols with the same target-language name,
and across the example run the union MyProblematicClass::Variant —
referenced by make_variant and by both method_broken declarations — is
registered exactly once. -/
theorem union_type_maps_to_single_canonical_symbol :
    (∀ (model : List Declaration) (fuel : Nat) (visited : List QualifiedName)
        (t : TypeRef) (r : TargetType) (syms : List GeneratedSymbol),
        mapTypeF model fuel visited t = .ok (r, syms) →
        ∀ s ∈ syms,
          s.targetName = canonicalName s.originQName ∧ s.kind = .TypeDefinition)
    ∧ (∀ (rules : List ExclusionRule) (decls : List Declaration),
        (((generate rules decls).1).map (fun s => s.targetName)).Nodup)
    ∧ (((runState [] exampleDecls).table.filter
          (fun s => s.originQName = variantQN)).length = 1)
    ∧ (((generate [] exampleDecls).1.filter
          (fun s => s.originQName = variantQN)).length = 1) := by
  refine ⟨?_, ?_, by decide, by decide⟩
  · intro model fuel visited t r syms h
    exact mapTypeF_syms_canonical fuel model visited t r syms h
  · intro rules decls
    simp only [generate]
    refine List.Nodup.sublist ?_ (runState_table_nodup rules decls)
    exact List.Sublist.map _ (List.filter_sublist _)

/-- Witness for C2: the single symbol collected when mapping the example
union carries the canonical name of its originating qualified name. -/
theorem union_type_maps_to_single_canonical_symbol_witness :
    ("my_namespace_MyProblematicClass_Variant" : String) = canonicalName variantQN ∧
    GenKind.TypeDefinition = GenKind.TypeDefinition :=
  union_type_maps_to_single_canonical_symbol.1 exampleDecls 13 []
    (.decl variantQN .value)
    (.sumType "my_namespace_MyProblematicClass_Variant"
      [(0, .sharedRef (.record "my_namespace_X" [])),
       (1, .sharedRef (.record "my_namespace_Y" [])),
       (2, .sharedRef (.record "my_namespace_Z" [])),
       (3, .record "my_namespace_Rect" [])])
    [⟨"my_namespace_MyProblematicClass_Variant", variantQN, .TypeDefinition⟩]
    rfl
    ⟨"my_namespace_MyProblematicClass_Variant", variantQN, .TypeDefinition⟩
    (by decide)

/-- Claim C3: an excluded declaration is skipped before any Type Mapper
call or Symbol Table claim, so it contributes no symbol and no error; with
an ExclusionRule for my_namespace::MyPrimaryClass::method_broken, the free
function method_broken emits successfully and no conflict is reported. -/
theorem excluded_declaration_claims_nothing :
    (∀ (rules : List ExclusionRule) (model : List Declaration) (st : GenState)
        (d : Declaration) (gk : GenKind),
        genKindOf d.kind = some gk → isExcluded rules d.qname gk = true →
        stepDecl rules model st d = st)
    ∧ ((generate [⟨memberBrokenQN, none⟩] exampleDecls).2 = [])
    ∧ (∃ s ∈ (generate [⟨memberBrokenQN, none⟩] exampleDecls).1,
        s.originQName = freeBrokenQN ∧ s.targetName = "method_broken") := by
  refine ⟨?_, by decide, by decide⟩
  intro rules model st d gk hg he
  exact stepDecl_of_excluded rules model st d gk hg he

/-- Witness for C3: processing the excluded member method
my_namespace::MyPrimaryClass::method_broken leaves the emitter state
untouched. -/
theorem excluded_declaration_claims_nothing_witness :
    stepDecl [⟨memberBrokenQN, none⟩] exampleDecls initState
      ⟨memberBrokenQN, .Method, .methodSig [.decl variantQN .borrowed] (.prim "uint32_t")⟩ =
      initState :=
  excluded_declaration_claims_nothing.1 [⟨memberBrokenQN, none⟩] exampleDecls initState
    ⟨memberBrokenQN, .Method, .methodSig [.decl variantQN .borrowed] (.prim "uint32_t")⟩
    .MethodWrapper rfl (by decide)

/-- Claim C4: mapping a TaggedUnionType yields a sum type with one variant
per alternative whose discriminant indices follow declared order, index 0
first; for the example union with four alternatives the Rect alternative
(declared fourth) always receives discriminant index 3. -/
theorem tagged_union_discriminant_order_preserved :
    (∀ (model : List Declaration) (fuel : Nat) (visited : List QualifiedName)
        (qn dq : QualifiedName) (alts : List TypeRef)
        (rs : List (TargetType × List GeneratedSymbol)),
        qn ∉ visited →
        lookup model qn = some ⟨dq, .TaggedUnion, .unionAlts alts⟩ →
        mapExc (mapTypeF model fuel (qn :: visited)) alts = .ok rs →
        mapTypeF model (fuel + 1) visited (.decl qn .value) =
          .ok (.sumType (canonicalName qn) (enumerateFrom 0 (rs.map Prod.fst)),
               ⟨canonicalName qn, qn, .TypeDefinition⟩ :: (rs.map Prod.snd).flatten) ∧
        rs.length = alts.length ∧
        ∀ (k : Nat) (a : TypeRef), alts[k]? = some a →
          ∃ b, mapTypeF model fuel (qn :: visited) a = .ok b ∧
            (enumerateFrom 0 (rs.map Prod.fst))[k]? = some (k, b.1))
    ∧ mapType exampleDecls (.decl variantQN .value) =
        .ok (.sumType "my_namespace_MyProblematicClass_Variant"
          [(0, .sharedRef (.record "my_namespace_X" [])),
           (1, .sharedRef (.record "my_namespace_Y" [])),
           (2, .sharedRef (.record "my_namespace_Z" [])),
           (3, .record "my_namespace_Rect" [])],
          [⟨"my_namespace_MyProblematicClass_Variant", variantQN, .TypeDefinition⟩])
    ∧ ([(0, TargetType.sharedRef (.record "my_namespace_X" [])),
        (1, .sharedRef (.record "my_namespace_Y" [])),
        (2, .sharedRef (.record "my_namespace_Z" [])),
        (3, .record "my_namespace_Rect" [])][3]? =
          some (3, TargetType.record "my_namespace_Rect" [])) := by
  refine ⟨?_, rfl, rfl⟩
  intro model fuel visited qn dq alts rs hv hlk hrs
  exact mapTypeF_union_discriminants model fuel visited qn dq alts rs hv hlk hrs

/-- Witness for C4: instantiating the order-preservation theorem on the
example union at index 3 produces the Rect alternative with discriminant 3. -/
theorem tagged_union_discriminant_order_preserved_witness :
    ∃ b, mapTypeF exampleDecls 12 [variantQN] (.decl ["my_namespace", "Rect"] .value) =
        .ok b ∧
      (enumerateFrom 0
        ([(TargetType.sharedRef (.record "my_namespace_X" []),
            ([] : List GeneratedSymbol)),
          (.sharedRef (.record "my_namespace_Y" []), []),
          (.sharedRef (.record "my_namespace_Z" []), []),
          (.record "my_namespace_Rect" [], [])].map Prod.fst))[3]? = some (3, b.1) :=
  (tagged_union_discriminant_order_preserved.1 exampleDecls 12 [] variantQN variantQN
    [.decl ["my_namespace", "X"] .shared,
     .decl ["my_namespace", "Y"] .shared,
     .decl ["my_namespace", "Z"] .shared,
     .decl ["my_namespace", "Rect"] .value]
    [(.sharedRef (.record "my_namespace_X" []), []),
     (.sharedRef (.record "my_namespace_Y" []), []),
     (.sharedRef (.record "my_namespace_Z" []), []),
     (.record "my_namespace_Rect" [], [])]
    (by decide) rfl rfl).2.2 3 (.decl ["my_namespace", "Rect"] .value) rfl

/-- Claim C5: generation is a single linear pass that never aborts on a
per-symbol error: every declaration is processed, errors and accepted
symbols only accumulate, and on the example run the conflict error is
reported while every validly emittable declaration is still emitted. -/
theorem generation_collects_errors_without_aborting :
    (∀ (rules : List ExclusionRule) (ds1 ds2 : List Declaration),
        runState rules (ds1 ++ ds2) =
          ds2.foldl (stepDecl rules (ds1 ++ ds2))
            (ds1.foldl (stepDecl rules (ds1 ++ ds2)) initState))
    ∧ (∀ (rules : List ExclusionRule) (model : List Declaration) (st : GenState)
        (d : Declaration), ∃ t, (stepDecl rules model st d).errors = st.errors ++ t)
    ∧ (∀ (rules : List ExclusionRule) (model : List Declaration) (st : GenState)
        (d : Declaration), ∃ t, (stepDecl rules model st d).table = st.table ++ t)
    ∧ (generate [] exampleDecls).2 ≠ []
    ∧ (generate [] exampleDecls).1 =
        [⟨"my_namespace_X", ["my_namespace", "X"], .TypeDefinition⟩,
         ⟨"my_namespace_Y", ["my_namespace", "Y"], .TypeDefinition⟩,
         ⟨"my_namespace_Z", ["my_namespace", "Z"], .TypeDefinition⟩,
         ⟨"my_namespace_Rect", ["my_namespace", "Rect"], .TypeDefinition⟩,
         ⟨"my_namespace_MyProblematicClass", ["my_namespace", "MyProblematicClass"],
           .TypeDefinition⟩,
         ⟨"my_namespace_MyProblematicClass_Variant", variantQN, .TypeDefinition⟩,
         ⟨"make_variant", ["my_namespace", "make_variant"], .FreeFunctionWrapper⟩,
         ⟨"my_namespace_MyPrimaryClass", ["my_namespace", "MyPrimaryClass"],
           .TypeDefinition⟩,
         ⟨"method_one", ["my_namespace", "MyPrimaryClass", "method_one"], .MethodWrapper⟩,
         ⟨"method_two", ["my_namespace", "MyPrimaryClass", "method_two"],
           .MethodWrapper⟩] := by
  refine ⟨?_, stepDecl_errors_append, stepDecl_table_append, by decide, by decide⟩
  intro rules ds1 ds2
  unfold runState
  exact List.foldl_append _ _ _ _

/-- Witness for C5: processing struct X from the empty state only appends
to the error list (here nothing). -/
theorem generation_collects_errors_without_aborting_witness :
    ∃ t, (stepDecl [] exampleDecls initState
        ⟨["my_namespace", "X"], .Struct, .structFields []⟩).errors =
      initState.errors ++ t :=
  generation_collects_errors_without_aborting.2.1 [] exampleDecls initState
    ⟨["my_namespace", "X"], .Struct, .structFields []⟩

/-- Claim C6: claiming a target-language name not yet in the table records
it and is Accepted; re-claiming with the same originating qualified name
and kind is idempotent and Accepted; claiming a name held by a different
originating declaration returns ConflictsWith the existing entry, and in
every case the existing table entries are never overwritten. -/
theorem claim_idempotent_and_conflict_preserving :
    (∀ (tbl : List GeneratedSymbol) (s : GeneratedSymbol),
        tbl.find? (fun e => e.targetName = s.targetName) = none →
        claim tbl s = (.Accepted, tbl ++ [s]))
    ∧ (∀ (tbl : List GeneratedSymbol) (s e : GeneratedSymbol),
        tbl.find? (fun e => e.targetName = s.targetName) = some e →
        e.originQName = s.originQName → e.kind = s.kind →
        claim tbl s = (.Accepted, tbl))
    ∧ (∀ (tbl : List GeneratedSymbol) (s e : GeneratedSymbol),
        tbl.find? (fun e => e.targetName = s.targetName) = some e →
        ¬(e.originQName = s.originQName ∧ e.kind = s.kind) →
        claim tbl s = (.ConflictsWith e, tbl)) :=
  ⟨claim_of_find_none, claim_of_find_same, claim_of_find_diff⟩

/-- Witness for C6: claiming the free function's wrapper name against a
table holding the member method's wrapper conflicts with the member's
entry and leaves the table unchanged. -/
theorem claim_idempotent_and_conflict_preserving_witness :
    claim [⟨"method_broken", memberBrokenQN, .MethodWrapper⟩]
        ⟨"method_broken", freeBrokenQN, .FreeFunctionWrapper⟩ =
      (.ConflictsWith ⟨"method_broken", memberBrokenQN, .MethodWrapper⟩,
       [⟨"method_broken", memberBrokenQN, .MethodWrapper⟩]) :=
  claim_idempotent_and_conflict_preserving.2.2
    [⟨"method_broken", memberBrokenQN, .MethodWrapper⟩]
    ⟨"method_broken", freeBrokenQN, .FreeFunctionWrapper⟩
    ⟨"method_broken", memberBrokenQN, .MethodWrapper⟩
    (by decide) (by decide)

/-- Claim C7: type mapping terminates on every input — at any recursion
bound exceeding the number of unvisited declarations the fuel is never
exhausted, in particular never at the default bound — and a cyclic type
reference is rejected with CyclicTypeError instead of recursing, as on the
cyclic two-union model. -/
theorem type_mapping_terminates_and_rejects_cycles :
    (∀ (model : List Declaration) (visited : List QualifiedName) (t : TypeRef)
        (fuel : Nat), remaining model visited < fuel →
        mapTypeF model fuel visited t ≠ .error .FuelExhausted)
    ∧ (∀ (model : List Declaration) (t : TypeRef),
        mapType model t ≠ .error .FuelExhausted)
    ∧ (∀ (model : List Declaration) (fuel : Nat) (visited : List QualifiedName)
        (qn : QualifiedName) (own : Ownership), qn ∈ visited →
        mapTypeF model (fuel + 1) visited (.decl qn own) =
          .error (.CyclicTypeError qn))
    ∧ mapType cyclicDecls (.decl ["ns", "A"] .value) =
        .error (.CyclicTypeError ["ns", "A"]) :=
  ⟨fun model visited t fuel h => mapTypeF_ne_fuelExhausted fuel model visited t h,
   mapType_ne_fuelExhausted,
   fun model fuel visited qn own h => mapTypeF_decl_visited model fuel visited qn own h,
   rfl⟩

/-- Witness for C7: at fuel 13, above the measure of the example model,
mapping the example union does not exhaust the recursion bound. -/
theorem type_mapping_terminates_and_rejects_cycles_witness :
    mapTypeF exampleDecls 13 [] (.decl variantQN .value) ≠ .error .FuelExhausted :=
  type_mapping_terminates_and_rejects_cycles.1 exampleDecls [] (.decl variantQN .value)
    13 (by decide)

/-- Claim C8: a value struct or class whose members all map without
producing any tagged-union symbol maps 1:1 to a plain foreign record type
with no discriminant machinery, for both declaration kinds Struct and
Class; concretely, the struct Rect and the class MyProblematicClass each
map to a bare record with no registered union symbol. -/
theorem plain_struct_maps_to_record_without_discriminants :
    (∀ (model : List Declaration) (fuel : Nat) (visited : List QualifiedName)
        (qn dq : QualifiedName) (own : Ownership) (k : DeclKind)
        (fs : List (String × TypeRef)),
        qn ∉ visited →
        (k = .Struct ∨ k = .Class) →
        lookup model qn = some ⟨dq, k, .structFields fs⟩ →
        (∀ fl ∈ fs, ∃ t, mapTypeF model fuel (qn :: visited) fl.2 = .ok (t, [])) →
        ∃ rfs, mapTypeF model (fuel + 1) visited (.decl qn own) =
          .ok (applyOwnership own (.record (canonicalName qn) rfs), []))
    ∧ mapType exampleDecls (.decl ["my_namespace", "Rect"] .value) =
        .ok (.record "my_namespace_Rect" [], [])
    ∧ mapType exampleDecls (.decl ["my_namespace", "MyProblematicClass"] .value) =
        .ok (.record "my_namespace_MyProblematicClass" [], []) := by
  refine ⟨?_, rfl, rfl⟩
  intro model fuel visited qn dq own k fs hv hk hlk hfields
  rcases hk with rfl | rfl
  · exact mapTypeF_struct_plain model fuel visited qn own dq fs hv hlk hfields
  · exact mapTypeF_class_plain model fuel visited qn own dq fs hv hlk hfields

/-- Witness for C8: the class MyProblematicClass, which has no members at
all, maps to a plain record with no union symbol registered, exercising
the Class branch of the theorem. -/
theorem plain_struct_maps_to_record_without_discriminants_witness :
    ∃ rfs, mapTypeF exampleDecls (12 + 1) []
        (.decl ["my_namespace", "MyProblematicClass"] .value) =
      .ok (applyOwnership .value
             (.record (canonicalName ["my_namespace", "MyProblematicClass"]) rfs),
           []) :=
  plain_struct_maps_to_record_without_discriminants.1 exampleDecls 12 []
    ["my_namespace", "MyProblematicClass"] ["my_namespace", "MyProblematicClass"]
    .value .Class [] (by decide) (Or.inr rfl) rfl
    (fun fl h => absurd h (List.not_mem_nil fl))

/-- Claim C9: the inline functions of the header are constant and
argument-independent: MyPrimaryClass::method_one returns 1,
MyPrimaryClass::method_two returns 2, and the free function
my_namespace::method_broken returns 3 for every variant argument while
leaving the const-referenced argument unchanged. -/
theorem inline_functions_return_constants :
    ∀ (s : my_namespace.MyPrimaryClass) (v : my_namespace.MyProblematicClass.Variant),
      s.method_one = 1 ∧ s.method_two = 2 ∧ my_namespace.method_broken v = (3, v) :=
  fun _ _ => ⟨rfl, rfl, rfl⟩

/-- Witness for C9: the constants at a concrete receiver and a concrete
variant argument. -/
theorem inline_functions_return_constants_witness :
    my_namespace.MyPrimaryClass.method_one ⟨⟩ = 1 ∧
    my_namespace.MyPrimaryClass.method_two ⟨⟩ = 2 ∧
    my_namespace.method_broken (.altRect ⟨⟩) = (3, .altRect ⟨⟩) :=
  inline_functions_return_constants ⟨⟩ (.altRect ⟨⟩)

/-- Claim C10: make_variant returns a default-constructed Variant holding
the first declared alternative, a null shared_ptr of X, whose discriminant
index is 0. -/
theorem make_variant_default_constructs_first_alternative :
    my_namespace.make_variant = .altX SharedPtr.null ∧
    my_namespace.make_variant.index = 0 :=
  ⟨rfl, rfl⟩
